import Mathlib

/-!
Shallow embedding of `src/server.ts` (emmet-ls language server), the first
revision in the file (lines 1-292), which is the authoritative one.

External collaborators (the `emmet` expansion engine and the LSP transport /
document-sync layer) are modelled as parameters: the engine is a bundle of
functions that may fail (`Except String`), the document-sync layer is a
partial map from URIs to documents.  JavaScript exceptions are modelled with
`Except String`; every `try { .. } catch (error) { connection.console.log(..) }`
block of the source becomes a `match` that converts the error into a log
entry `"ERR: " ++ e` and a non-throwing result, exactly mirroring the source's
control flow.  JavaScript string truthiness (`placeholder ? .. : ..`) is
modelled as an emptiness test, and `String(undefined)` as the literal string
`"undefined"`.
-/

namespace EmmetLs

/-- LSP zero-based position (`{ line, character }`). -/
structure Position where
  line : Nat
  character : Nat
deriving DecidableEq

/-- LSP range; the source builds it in `buildRange`.  `stop` models the
LSP field `end` (a Lean keyword). -/
structure Range where
  start : Position
  stop : Position
deriving DecidableEq

/-- LSP text edit (`{ range, newText }`). -/
structure TextEdit where
  range : Range
  newText : String
deriving DecidableEq

/-- `InsertTextFormat` of the LSP library; the source only ever uses
`InsertTextFormat.Snippet`. -/
inductive InsertTextFormatT where
  | plainText
  | snippet
deriving DecidableEq

/-- `CompletionItemKind` of the LSP library (a selection of the enum values);
the source only ever uses `CompletionItemKind.Snippet`. -/
inductive CompletionItemKindT where
  | text
  | method
  | function
  | keyword
  | snippet
deriving DecidableEq

/-- The `data` field the source attaches to every completion item. -/
structure CompletionData where
  range : Range
  textResult : String
deriving DecidableEq

/-- The completion item shape assembled by `buildCompletionItem`. -/
structure CompletionItem where
  insertTextFormat : InsertTextFormatT
  label : String
  detail : String
  documentation : String
  textEdit : TextEdit
  kind : CompletionItemKindT
  data : CompletionData
deriving DecidableEq

/-- `interface Settings { html_filetypes, css_filetypes }`. -/
structure Settings where
  html_filetypes : List String
  css_filetypes : List String
deriving DecidableEq

/-- `const defaultSettings: Settings = { html_filetypes: ['html'], css_filetypes: ['css'] }`. -/
def defaultSettings : Settings :=
  { html_filetypes := ["html"], css_filetypes := ["css"] }

/-- The options object passed to `extract`: `{}` or `{ type: "stylesheet" }`. -/
structure Opts where
  type : Option String := none
deriving DecidableEq

/-- Result of the engine's `extract` scan: `{ start, abbreviation }`
(the `end` field of the engine's result is unused by the source). -/
structure ExtractedAbbreviation where
  start : Nat
  abbreviation : String
deriving DecidableEq

/-- The user-supplied part of an engine configuration: a grammar-type flag and
the `output.field` placeholder-formatting hook, as passed to `resolveConfig`. -/
structure EmmetUserConfig where
  type : Option String := none
  outputField : Nat → String → String

/-- The `emmet` engine, an external collaborator with a fixed contract:
a scanner, a configuration resolver and, per grammar, a parse and a
serialize function.  `Config` is the engine's resolved-configuration type,
`TreeM`/`TreeS` its markup and stylesheet tree types; any of the calls may
throw, modelled with `Except String`. -/
structure EmmetEngine (Config TreeM TreeS : Type) where
  resolveConfig : EmmetUserConfig → Config
  extract : String → Nat → Opts → Except String (Option ExtractedAbbreviation)
  parseMarkup : String → Config → Except String TreeM
  stringifyMarkup : TreeM → Config → Except String String
  parseStylesheet : String → Config → Except String TreeS
  stringifyStylesheet : TreeS → Config → Except String String

/-- The `output.field` hook installed by both `getCssSnippet` and
`getHtmlSnippet`:
`(index, placeholder) => \x60\$\x5c\x7b${index}${placeholder ? ":" + placeholder : ""}\x5c\x7d\x60`.
A JavaScript string is truthy exactly when it is nonempty. -/
def outputField (index : Nat) (placeholder : String) : String :=
  "$\x7b" ++ toString index ++ (if placeholder = "" then "" else ":" ++ placeholder) ++ "\x7d"

/-- `getCssSnippet`: resolve a stylesheet configuration carrying the
`output.field` hook, parse the abbreviation with it, serialize with the same
configuration. -/
def getCssSnippet {C TM TS : Type} (eng : EmmetEngine C TM TS)
    (abbreviation : String) : Except String String :=
  let cssConfig := eng.resolveConfig { type := some "stylesheet", outputField := outputField }
  (eng.parseStylesheet abbreviation cssConfig).bind fun markup =>
    eng.stringifyStylesheet markup cssConfig

/-- `getHtmlSnippet`: same as `getCssSnippet` but with the markup grammar
(no `type` field in the user configuration). -/
def getHtmlSnippet {C TM TS : Type} (eng : EmmetEngine C TM TS)
    (abbreviation : String) : Except String String :=
  let htmlconfig := eng.resolveConfig { type := none, outputField := outputField }
  (eng.parseMarkup abbreviation htmlconfig).bind fun markup =>
    eng.stringifyMarkup markup htmlconfig

/-- `buildCompletionItem(abbreviation, textResult, range)`. -/
def buildCompletionItem (abbreviation : String) (textResult : String)
    (range : Range) : CompletionItem :=
  { insertTextFormat := .snippet
    label := abbreviation
    detail := abbreviation
    documentation := textResult
    textEdit := { range := range, newText := textResult }
    kind := .snippet
    data := { range := range, textResult := textResult } }

/-- `buildRange(linenr, left, right)`. -/
def buildRange (linenr : Nat) (left : Nat) (right : Nat) : Range :=
  { start := { line := linenr, character := left }
    stop := { line := linenr, character := right } }

/-- `getCompeletionItem(linenr, line, char, opts?)` (name as in the source).
The optional `opts` parameter defaults to `{}`; the whole body is wrapped in
`try { .. } catch (error) { connection.console.log(..) }`, so a throwing
`extract` or a throwing snippet render is converted into "no item" plus one
log entry, while an extraction miss (`extract` returns `undefined`) yields
"no item" with no log entry.  The second component is the log. -/
def getCompeletionItem {C TM TS : Type} (eng : EmmetEngine C TM TS)
    (linenr : Nat) (line : String) (char : Nat) (opts? : Option Opts) :
    Option CompletionItem × List String :=
  let opts := opts?.getD {}
  match eng.extract line char opts with
  | .error e => (none, ["ERR: " ++ e])
  | .ok none => (none, [])
  | .ok (some extractPosition) =>
    let left := extractPosition.start
    let right := extractPosition.start
    let abbreviation := extractPosition.abbreviation
    match (if opts.type = some "stylesheet"
           then getCssSnippet eng abbreviation
           else getHtmlSnippet eng abbreviation) with
    | .error e => (none, ["ERR: " ++ e])
    | .ok textResult =>
      let range := buildRange linenr left right
      (some (buildCompletionItem abbreviation textResult range), [])

/-- A document as served by the document-sync layer: a language id and the
full text (`docs.languageId`, `docs.getText()`). -/
structure TextDocument where
  languageId : String
  text : String
deriving DecidableEq

/-- `textDocument` field of the request parameters. -/
structure TextDocumentIdentifier where
  uri : String
deriving DecidableEq

/-- `TextDocumentPositionParams`. -/
structure TextDocumentPositionParams where
  textDocument : TextDocumentIdentifier
  position : Position
deriving DecidableEq

/-- `content.split(/\r?\n/g)`: split on each newline, where a carriage return
immediately preceding a newline is consumed with it. -/
def splitLinesAux : List Char → List Char → List String
  | [], acc => [String.mk acc.reverse]
  | '\r' :: '\n' :: rest, acc => String.mk acc.reverse :: splitLinesAux rest []
  | '\n' :: rest, acc => String.mk acc.reverse :: splitLinesAux rest []
  | c :: rest, acc => splitLinesAux rest (c :: acc)

/-- `content.split(/\r?\n/g)` on a string. -/
def splitLines (content : String) : List String :=
  splitLinesAux content.data []

/-- `String(content.split(/\r?\n/g)[linenr])`: indexing a JavaScript array out
of range yields `undefined`, and `String(undefined)` is the literal string
`"undefined"`. -/
def getLine (content : String) (linenr : Nat) : String :=
  match (splitLines content)[linenr]? with
  | some l => l
  | none => "undefined"

/-- The `connection.onCompletion` handler body.  The outer
`try { .. } catch (error)` turns the one throw site reachable in the try
block — `if (!docs) throw "failed to find document"` — into a logged empty
reply.  Routing consults `globalSettings` (the handler never reads the
per-document settings cache): the markup attempt runs when the language id
occurs in `html_filetypes`, the stylesheet attempt when it occurs in
`css_filetypes`, each pushing its item onto the result when produced.
The second component is the log. -/
def onCompletion {C TM TS : Type} (eng : EmmetEngine C TM TS)
    (documents : String → Option TextDocument) (globalSettings : Settings)
    (p : TextDocumentPositionParams) : List CompletionItem × List String :=
  match documents p.textDocument.uri with
  | none => ([], ["ERR: failed to find document"])
  | some docs =>
    let languageId := docs.languageId
    let content := docs.text
    let linenr := p.position.line
    let line := getLine content linenr
    let character := p.position.character
    let htmlRes :=
      if globalSettings.html_filetypes.contains languageId
      then getCompeletionItem eng linenr line character none
      else (none, [])
    let cssRes :=
      if globalSettings.css_filetypes.contains languageId
      then getCompeletionItem eng linenr line character (some { type := some "stylesheet" })
      else (none, [])
    (htmlRes.1.toList ++ cssRes.1.toList, htmlRes.2 ++ cssRes.2)

/-- A `Thenable<Settings>` as stored in the cache: either already resolved or
an in-flight retrieval identified by a token. -/
inductive ThenableSettings where
  | resolved (s : Settings)
  | pending (token : Nat)
deriving DecidableEq

/-- `let documentSettings: Map<string, Thenable<Settings>> = new Map()`,
modelled as an association list with unique keys (insertions happen only when
the key is absent, see `getDocumentSettings`). -/
def DocumentSettingsMap : Type := List (String × ThenableSettings)

/-- `Map.get` on the settings cache. -/
def mapGet (m : DocumentSettingsMap) (k : String) : Option ThenableSettings :=
  match m with
  | [] => none
  | (k0, v) :: rest => if k0 = k then some v else mapGet rest k

/-- `getDocumentSettings(resource)`: without the configuration capability,
resolve to the global settings and leave the cache alone; otherwise return
the cached retrieval, creating and caching one (via the external
`connection.workspace.getConfiguration`, here `getConfiguration`) only when
none is present.  Returns the retrieval together with the updated cache. -/
def getDocumentSettings (hasConfigurationCapability : Bool)
    (globalSettings : Settings) (getConfiguration : String → ThenableSettings)
    (documentSettings : DocumentSettingsMap) (resource : String) :
    ThenableSettings × DocumentSettingsMap :=
  if !hasConfigurationCapability then
    (.resolved globalSettings, documentSettings)
  else
    match mapGet documentSettings resource with
    | some result => (result, documentSettings)
    | none =>
      let result := getConfiguration resource
      (result, (resource, result) :: documentSettings)

/-- `documents.onDidClose((e) => { documentSettings.delete(e.document.uri) })`:
`Map.delete` removes the entry for the key when present and does nothing
otherwise. -/
def onDidClose (documentSettings : DocumentSettingsMap) (uri : String) :
    DocumentSettingsMap :=
  match documentSettings with
  | [] => []
  | (k, v) :: rest => if k = uri then onDidClose rest uri
                      else (k, v) :: onDidClose rest uri

/-- The mutable module-level state of the server: the capability flag, the
global settings and the per-document settings cache. -/
structure ServerState where
  hasConfigurationCapability : Bool
  globalSettings : Settings
  documentSettings : DocumentSettingsMap

/-- The argument of `connection.onDidChangeConfiguration`. -/
structure ConfigChange where
  settings : Settings

/-- `connection.onDidChangeConfiguration((change) => { globalSettings = <Settings>change.settings })`:
the handler overwrites the global settings and touches nothing else. -/
def onDidChangeConfiguration (st : ServerState) (change : ConfigChange) :
    ServerState :=
  { st with globalSettings := change.settings }

/-- The completion handler viewed as a state transformer over the server
state.  Its body (`onCompletion`) reads `globalSettings` only: it never calls
`getDocumentSettings`, so the per-document settings cache (and the rest of
the state) is left untouched. -/
def onCompletionState {C TM TS : Type} (eng : EmmetEngine C TM TS)
    (documents : String → Option TextDocument) (st : ServerState)
    (p : TextDocumentPositionParams) :
    (List CompletionItem × List String) × ServerState :=
  (onCompletion eng documents st.globalSettings p, st)

/-- The `triggerCharacters` array advertised by `connection.onInitialize`. -/
def triggerCharacters : List String :=
  [">", ")", "]", "\x7d",
   "@", "*", "$", "+",
   -- alpha
   "a", "b", "c", "d", "e", "f", "g", "h", "i", "j", "k", "l", "m",
   "n", "o", "p", "q", "r", "s", "t", "u", "v", "w", "x", "y", "z",
   -- num
   "0", "1", "2", "3", "4", "5", "6", "7", "8", "9"]

/-! Concrete instantiations of the external collaborators, used to evaluate
the development on closed inputs. -/

/-- A well-behaved engine: the scanner always finds `ul` starting at offset 2,
markup renders to a snippet with one field, stylesheet likewise. -/
def wEngine : EmmetEngine Unit Unit Unit :=
  { resolveConfig := fun _ => ()
    extract := fun _ _ _ => .ok (some { start := 2, abbreviation := "ul" })
    parseMarkup := fun _ _ => .ok ()
    stringifyMarkup := fun _ _ => .ok "<ul>$\x7b1\x7d</ul>"
    parseStylesheet := fun _ _ => .ok ()
    stringifyStylesheet := fun _ _ => .ok "margin: $\x7b1\x7d;" }

/-- An engine whose scanner always throws. -/
def wEngineScanFail : EmmetEngine Unit Unit Unit :=
  { wEngine with extract := fun _ _ _ => .error "scan failed" }

/-- An engine whose scanner always misses (returns `undefined`). -/
def wEngineScanMiss : EmmetEngine Unit Unit Unit :=
  { wEngine with extract := fun _ _ _ => .ok none }

/-- An engine whose markup parser always throws. -/
def wEngineParseFail : EmmetEngine Unit Unit Unit :=
  { wEngine with parseMarkup := fun _ _ => .error "bad parse" }

/-- A document-sync layer holding one open html document with text
`"hello"`. -/
def wDocuments : String → Option TextDocument :=
  fun uri => if uri = "file:a.html" then some { languageId := "html", text := "hello" }
             else none

/-- A completion request at line 0, character 5 of that document. -/
def wParams : TextDocumentPositionParams :=
  { textDocument := { uri := "file:a.html" }, position := { line := 0, character := 5 } }

/-- A completion request at line 7 (out of range) of that document. -/
def wParamsLine7 : TextDocumentPositionParams :=
  { textDocument := { uri := "file:a.html" }, position := { line := 7, character := 5 } }

/-- A completion request for a URI the sync layer does not know. -/
def wParamsUnknown : TextDocumentPositionParams :=
  { textDocument := { uri := "file:gone.html" }, position := { line := 0, character := 5 } }

/-- Settings placing the language id `html` in both filetype lists. -/
def wSettingsBoth : Settings :=
  { html_filetypes := ["html"], css_filetypes := ["html"] }

/-- A document-sync layer holding one plain-text document, whose language id
occurs in neither default filetype list. -/
def wDocumentsTxt : String → Option TextDocument :=
  fun uri => if uri = "file:c.txt" then some { languageId := "plaintext", text := "x" }
             else none

/-- A completion request against the plain-text document. -/
def wParamsTxt : TextDocumentPositionParams :=
  { textDocument := { uri := "file:c.txt" }, position := { line := 0, character := 1 } }

/-- A server state with the per-scope configuration capability, default
settings and an empty per-document settings cache. -/
def wState : ServerState :=
  { hasConfigurationCapability := true
    globalSettings := defaultSettings
    documentSettings := [] }

/-! Theorems. -/

/-- Inversion for `getCompeletionItem`: an item is produced exactly from a
successful extraction and a successful render, and it is the assembled item
over the zero-width range at the abbreviation's start. -/
theorem getCompeletionItem_inv {C TM TS : Type} (eng : EmmetEngine C TM TS)
    (linenr : Nat) (line : String) (char : Nat) (opts? : Option Opts)
    (item : CompletionItem)
    (h : (getCompeletionItem eng linenr line char opts?).1 = some item) :
    ∃ ep textResult,
      eng.extract line char (opts?.getD {}) = .ok (some ep) ∧
      (if (opts?.getD {}).type = some "stylesheet"
       then getCssSnippet eng ep.abbreviation
       else getHtmlSnippet eng ep.abbreviation) = .ok textResult ∧
      item = buildCompletionItem ep.abbreviation textResult
               (buildRange linenr ep.start ep.start) := by
  simp only [getCompeletionItem] at h
  split at h
  · simp at h
  · simp at h
  · rename_i ep hx
    split at h
    · simp at h
    · rename_i textResult hr
      simp only [Option.some.injEq] at h
      exact ⟨ep, textResult, hx, hr, h.symm⟩

/-- Inversion for `onCompletion`: every returned item comes from one of the
two grammar attempts run on the requested line. -/
theorem onCompletion_mem_inv {C TM TS : Type} (eng : EmmetEngine C TM TS)
    (documents : String → Option TextDocument) (gs : Settings)
    (p : TextDocumentPositionParams) (item : CompletionItem)
    (hmem : item ∈ (onCompletion eng documents gs p).1) :
    ∃ docs, documents p.textDocument.uri = some docs ∧
      ∃ opts?, (getCompeletionItem eng p.position.line
                 (getLine docs.text p.position.line)
                 p.position.character opts?).1 = some item := by
  simp only [onCompletion] at hmem
  cases hdoc : documents p.textDocument.uri with
  | none => rw [hdoc] at hmem; simp at hmem
  | some docs =>
    rw [hdoc] at hmem
    simp only [List.mem_append] at hmem
    refine ⟨docs, rfl, ?_⟩
    rcases hmem with hmem | hmem
    · rw [Option.mem_toList, Option.mem_def] at hmem
      split at hmem
      · exact ⟨none, hmem⟩
      · simp at hmem
    · rw [Option.mem_toList, Option.mem_def] at hmem
      split at hmem
      · exact ⟨some { type := some "stylesheet" }, hmem⟩
      · simp at hmem

/-- C1: for every completion request in which extraction succeeds and an item
is produced, the item's replacement range has start and end character both
equal to the extracted abbreviation's start offset, both positions carry the
request's line number, and the range does not extend to the cursor. -/
theorem completion_range_zero_width_at_abbreviation_start {C TM TS : Type}
    (eng : EmmetEngine C TM TS) (documents : String → Option TextDocument)
    (gs : Settings) (p : TextDocumentPositionParams) (item : CompletionItem)
    (hmem : item ∈ (onCompletion eng documents gs p).1) :
    ∃ docs opts ep,
      documents p.textDocument.uri = some docs ∧
      eng.extract (getLine docs.text p.position.line) p.position.character opts
        = .ok (some ep) ∧
      item.textEdit.range =
        { start := { line := p.position.line, character := ep.start }
          stop := { line := p.position.line, character := ep.start } } := by
  obtain ⟨docs, hdoc, opts?, hsome⟩ := onCompletion_mem_inv eng documents gs p item hmem
  obtain ⟨ep, textResult, hx, _, hitem⟩ :=
    getCompeletionItem_inv eng p.position.line (getLine docs.text p.position.line)
      p.position.character opts? item hsome
  exact ⟨docs, opts?.getD {}, ep, hdoc, hx, by rw [hitem]; rfl⟩

/-- C1 witness: on the concrete request `wParams` against `wDocuments` with
`wEngine`, the produced item exists and its range is the zero-width range at
offset 2 on line 0. -/
theorem completion_range_zero_width_witness :
    ∃ docs opts ep,
      wDocuments wParams.textDocument.uri = some docs ∧
      wEngine.extract (getLine docs.text wParams.position.line)
        wParams.position.character opts = .ok (some ep) ∧
      (buildCompletionItem "ul" "<ul>$\x7b1\x7d</ul>" (buildRange 0 2 2)).textEdit.range =
        { start := { line := wParams.position.line, character := ep.start }
          stop := { line := wParams.position.line, character := ep.start } } :=
  completion_range_zero_width_at_abbreviation_start wEngine wDocuments
    defaultSettings wParams
    (buildCompletionItem "ul" "<ul>$\x7b1\x7d</ul>" (buildRange 0 2 2))
    (by decide)

/-- C2: every completion request receives a well-formed list of at most two
items, never an error fault; an error reaching the handler's outer catch — in
particular the document not being found in the sync layer — is logged and
converted into an empty result list. -/
theorem completion_reply_always_wellformed {C TM TS : Type}
    (eng : EmmetEngine C TM TS) (documents : String → Option TextDocument)
    (gs : Settings) (p : TextDocumentPositionParams) :
    (onCompletion eng documents gs p).1.length ≤ 2 ∧
    (documents p.textDocument.uri = none →
      onCompletion eng documents gs p = ([], ["ERR: failed to find document"])) := by
  constructor
  · have hopt : ∀ (x y : Option CompletionItem), (x.toList ++ y.toList).length ≤ 2 := by
      intro x y; cases x <;> cases y <;> simp
    simp only [onCompletion]
    cases hdoc : documents p.textDocument.uri with
    | none => simp
    | some docs => exact hopt _ _
  · intro hnone
    simp [onCompletion, hnone]

/-- C2 witness: a request for an unknown document yields the empty list with
the logged lookup failure, and a concrete successful request yields at most
two items. -/
theorem completion_reply_always_wellformed_witness :
    onCompletion wEngine wDocuments defaultSettings wParamsUnknown
      = ([], ["ERR: failed to find document"]) ∧
    (onCompletion wEngine wDocuments defaultSettings wParams).1.length ≤ 2 :=
  ⟨(completion_reply_always_wellformed wEngine wDocuments defaultSettings
      wParamsUnknown).2 (by decide),
   (completion_reply_always_wellformed wEngine wDocuments defaultSettings wParams).1⟩

/-- C3: within one grammar attempt, a throwing scanner yields no item plus
one log entry; a scanner miss yields no item and no log entry; a throwing
render yields no item plus one log entry; and a stylesheet attempt that does
produce an item places it in the reply regardless of what the markup attempt
did, so one grammar's failure never suppresses the other grammar's item. -/
theorem grammar_attempt_error_containment {C TM TS : Type}
    (eng : EmmetEngine C TM TS) :
    (∀ (linenr : Nat) (line : String) (char : Nat) (opts? : Option Opts) (e : String),
       eng.extract line char (opts?.getD {}) = .error e →
       getCompeletionItem eng linenr line char opts? = (none, ["ERR: " ++ e])) ∧
    (∀ (linenr : Nat) (line : String) (char : Nat) (opts? : Option Opts),
       eng.extract line char (opts?.getD {}) = .ok none →
       getCompeletionItem eng linenr line char opts? = (none, [])) ∧
    (∀ (linenr : Nat) (line : String) (char : Nat) (opts? : Option Opts)
       (ep : ExtractedAbbreviation) (e : String),
       eng.extract line char (opts?.getD {}) = .ok (some ep) →
       (if (opts?.getD {}).type = some "stylesheet"
        then getCssSnippet eng ep.abbreviation
        else getHtmlSnippet eng ep.abbreviation) = .error e →
       getCompeletionItem eng linenr line char opts? = (none, ["ERR: " ++ e])) ∧
    (∀ (documents : String → Option TextDocument) (gs : Settings)
       (p : TextDocumentPositionParams) (docs : TextDocument) (item : CompletionItem),
       documents p.textDocument.uri = some docs →
       gs.css_filetypes.contains docs.languageId = true →
       (getCompeletionItem eng p.position.line (getLine docs.text p.position.line)
          p.position.character (some { type := some "stylesheet" })).1 = some item →
       item ∈ (onCompletion eng documents gs p).1) := by
  refine ⟨?_, ?_, ?_, ?_⟩
  · intro linenr line char opts? e h
    simp [getCompeletionItem, h]
  · intro linenr line char opts? h
    simp [getCompeletionItem, h]
  · intro linenr line char opts? ep e hx hr
    simp [getCompeletionItem, hx, hr]
  · intro documents gs p docs item hdoc hcss hitem
    have hcss2 : docs.languageId ∈ gs.css_filetypes := by simpa using hcss
    simp [onCompletion, hdoc, hcss2, hitem]

/-- C3 witness: the containment clauses evaluated on concrete engines — a
throwing scanner, a missing scanner, a throwing markup parser — and a
concrete stylesheet item surviving next to the markup attempt. -/
theorem grammar_attempt_error_containment_witness :
    getCompeletionItem wEngineScanFail 0 "hello" 5 none
      = (none, ["ERR: " ++ "scan failed"]) ∧
    getCompeletionItem wEngineScanMiss 0 "hello" 5 none = (none, []) ∧
    getCompeletionItem wEngineParseFail 0 "hello" 5 none
      = (none, ["ERR: " ++ "bad parse"]) ∧
    buildCompletionItem "ul" "margin: $\x7b1\x7d;" (buildRange 0 2 2)
      ∈ (onCompletion wEngine wDocuments wSettingsBoth wParams).1 :=
  ⟨(grammar_attempt_error_containment wEngineScanFail).1 0 "hello" 5 none
     "scan failed" rfl,
   (grammar_attempt_error_containment wEngineScanMiss).2.1 0 "hello" 5 none rfl,
   (grammar_attempt_error_containment wEngineParseFail).2.2.1 0 "hello" 5 none
     { start := 2, abbreviation := "ul" } "bad parse" rfl rfl,
   (grammar_attempt_error_containment wEngine).2.2.2 wDocuments wSettingsBoth
     wParams { languageId := "html", text := "hello" }
     (buildCompletionItem "ul" "margin: $\x7b1\x7d;" (buildRange 0 2 2))
     (by decide) (by decide) (by decide)⟩

/-- C4: with the document found, the reply is exactly the concatenation of
the markup attempt's item (run iff the language id occurs in
`html_filetypes`) and the stylesheet attempt's item (run iff it occurs in
`css_filetypes`); it never holds more than two items; and when the language
id occurs in neither list the reply is empty and independent of the engine —
no extraction is attempted at all. -/
theorem grammar_routing_iff_filetype_membership (C TM TS : Type)
    (documents : String → Option TextDocument) (gs : Settings)
    (p : TextDocumentPositionParams) (docs : TextDocument)
    (hdoc : documents p.textDocument.uri = some docs) :
    (∀ eng : EmmetEngine C TM TS,
       (onCompletion eng documents gs p).1 =
         (if gs.html_filetypes.contains docs.languageId
          then (getCompeletionItem eng p.position.line
                 (getLine docs.text p.position.line) p.position.character none).1.toList
          else [])
         ++ (if gs.css_filetypes.contains docs.languageId
             then (getCompeletionItem eng p.position.line
                    (getLine docs.text p.position.line) p.position.character
                    (some { type := some "stylesheet" })).1.toList
             else [])) ∧
    (∀ eng : EmmetEngine C TM TS, (onCompletion eng documents gs p).1.length ≤ 2) ∧
    (gs.html_filetypes.contains docs.languageId = false →
     gs.css_filetypes.contains docs.languageId = false →
     ∀ eng : EmmetEngine C TM TS, onCompletion eng documents gs p = ([], [])) := by
  refine ⟨?_, ?_, ?_⟩
  · intro eng
    simp only [onCompletion, hdoc]
    split <;> split <;> rfl
  · intro eng
    have hopt : ∀ (x y : Option CompletionItem), (x.toList ++ y.toList).length ≤ 2 := by
      intro x y; cases x <;> cases y <;> simp
    simp only [onCompletion, hdoc]
    exact hopt _ _
  · intro h1 h2 eng
    have h1m : docs.languageId ∉ gs.html_filetypes := by
      simpa using h1
    have h2m : docs.languageId ∉ gs.css_filetypes := by
      simpa using h2
    simp [onCompletion, hdoc, h1m, h2m]

/-- C4 witness: a plain-text document (language id in neither list) yields the
empty reply for any engine behaviour, and an `html` document under settings
listing `html` in both lists yields the two items, markup first. -/
theorem grammar_routing_iff_filetype_membership_witness :
    onCompletion wEngine wDocumentsTxt defaultSettings wParamsTxt = ([], []) ∧
    (onCompletion wEngine wDocuments wSettingsBoth wParams).1 =
      [buildCompletionItem "ul" "<ul>$\x7b1\x7d</ul>" (buildRange 0 2 2),
       buildCompletionItem "ul" "margin: $\x7b1\x7d;" (buildRange 0 2 2)] := by
  constructor
  · exact (grammar_routing_iff_filetype_membership Unit Unit Unit wDocumentsTxt
      defaultSettings wParamsTxt { languageId := "plaintext", text := "x" }
      (by decide)).2.2 (by decide) (by decide) wEngine
  · have h := (grammar_routing_iff_filetype_membership Unit Unit Unit wDocuments
      wSettingsBoth wParams { languageId := "html", text := "hello" }
      (by decide)).1 wEngine
    rw [h]; decide

/-- C5 counterexample: with the per-scope configuration capability present,
an empty cache, and the document found, handling a completion request leaves
the cache without an entry for that document — the claimed lazy creation on
the first completion request does not happen (the retrieval helper
`getDocumentSettings` is never invoked by the completion handler). -/
theorem settings_cache_no_entry_after_completion :
    wState.hasConfigurationCapability = true ∧
    (wDocuments wParams.textDocument.uri).isSome = true ∧
    mapGet ((onCompletionState wEngine wDocuments wState wParams).2.documentSettings)
      wParams.textDocument.uri = none :=
  ⟨rfl, rfl, rfl⟩

/-- C5 (amended): handling a completion request never creates (or otherwise
changes) a settings-cache entry — lazy creation lives only in the
`getDocumentSettings` helper, which the completion handler does not invoke;
that helper creates an entry exactly when the capability is present and none
is cached, and leaves the cache unchanged otherwise; a close notification
removes exactly that document's entry, leaves every other entry in place,
and closing an identifier with no entry is a no-op. -/
theorem settings_cache_lifecycle :
    (∀ (C TM TS : Type) (eng : EmmetEngine C TM TS)
       (documents : String → Option TextDocument) (st : ServerState)
       (p : TextDocumentPositionParams),
       (onCompletionState eng documents st p).2 = st) ∧
    (∀ (gs : Settings) (fetch : String → ThenableSettings)
       (m : DocumentSettingsMap) (resource : String),
       mapGet m resource = none →
       getDocumentSettings true gs fetch m resource
         = (fetch resource, (resource, fetch resource) :: m)) ∧
    (∀ (gs : Settings) (fetch : String → ThenableSettings)
       (m : DocumentSettingsMap) (resource : String) (v : ThenableSettings),
       mapGet m resource = some v →
       getDocumentSettings true gs fetch m resource = (v, m)) ∧
    (∀ (gs : Settings) (fetch : String → ThenableSettings)
       (m : DocumentSettingsMap) (resource : String),
       getDocumentSettings false gs fetch m resource = (.resolved gs, m)) ∧
    (∀ (m : DocumentSettingsMap) (uri : String),
       mapGet (onDidClose m uri) uri = none) ∧
    (∀ (m : DocumentSettingsMap) (uri k : String), k ≠ uri →
       mapGet (onDidClose m uri) k = mapGet m k) ∧
    (∀ (m : DocumentSettingsMap) (uri : String),
       mapGet m uri = none → onDidClose m uri = m) := by
  refine ⟨fun _ _ _ _ _ _ _ => rfl, ?_, ?_, fun _ _ _ _ => rfl, ?_, ?_, ?_⟩
  · intro gs fetch m resource h
    simp [getDocumentSettings, h]
  · intro gs fetch m resource v h
    simp [getDocumentSettings, h]
  · intro m uri
    induction m with
    | nil => rfl
    | cons hd tl ih =>
      obtain ⟨k, v⟩ := hd
      by_cases h : k = uri
      · simpa [onDidClose, h] using ih
      · simp [onDidClose, mapGet, h, ih]
  · intro m uri k hk
    have huk : ¬ (uri = k) := fun hh => hk hh.symm
    induction m with
    | nil => rfl
    | cons hd tl ih =>
      obtain ⟨k0, v⟩ := hd
      by_cases h : k0 = uri
      · simp [onDidClose, mapGet, h, huk, ih]
      · simp [onDidClose, mapGet, h, ih]
  · intro m uri
    induction m with
    | nil => intro _; rfl
    | cons hd tl ih =>
      obtain ⟨k, v⟩ := hd
      intro h
      by_cases hku : k = uri
      · rw [mapGet, if_pos hku] at h
        exact absurd h (by simp)
      · rw [mapGet, if_neg hku] at h
        simp [onDidClose, hku, ih h]

/-- C5 witness: the lifecycle clauses evaluated on concrete inputs — the
concrete completion request leaves the state unchanged; a retrieval with the
capability and an empty cache inserts the fetched entry; closing removes a
present entry; closing an identifier with no entry returns the cache
unchanged. -/
theorem settings_cache_lifecycle_witness :
    (onCompletionState wEngine wDocuments wState wParams).2 = wState ∧
    getDocumentSettings true defaultSettings (fun _ => .pending 0) [] "file:a.html"
      = (.pending 0, [("file:a.html", .pending 0)]) ∧
    mapGet (onDidClose [("file:a.html", .pending 0)] "file:a.html") "file:a.html"
      = none ∧
    onDidClose [("file:b.css", .pending 1)] "file:a.html"
      = [("file:b.css", .pending 1)] :=
  ⟨settings_cache_lifecycle.1 Unit Unit Unit wEngine wDocuments wState wParams,
   settings_cache_lifecycle.2.1 defaultSettings (fun _ => .pending 0) [] "file:a.html" rfl,
   settings_cache_lifecycle.2.2.2.2.1 [("file:a.html", .pending 0)] "file:a.html",
   settings_cache_lifecycle.2.2.2.2.2.2 [("file:b.css", .pending 1)] "file:a.html"
     (by decide)⟩

/-- C6: a pushed configuration change replaces the process-wide settings and
leaves the per-document settings cache (and the capability flag) unchanged. -/
theorem config_change_replaces_global_preserves_cache
    (st : ServerState) (change : ConfigChange) :
    (onDidChangeConfiguration st change).globalSettings = change.settings ∧
    (onDidChangeConfiguration st change).documentSettings = st.documentSettings ∧
    (onDidChangeConfiguration st change).hasConfigurationCapability
      = st.hasConfigurationCapability :=
  ⟨rfl, rfl, rfl⟩

/-- C7: the `output.field` hook handed to the engine configuration renders
the N-th empty tab stop as the five-character snippet form and a stop with
default text `d` as the form with `:d` inside the braces; and each snippet
render resolves one configuration carrying this hook (stylesheet-typed for
CSS, untyped for HTML) and uses that same configuration for both the parse
and the serialize step. -/
theorem placeholder_hook_format_and_shared_config {C TM TS : Type}
    (eng : EmmetEngine C TM TS) (a : String) :
    (∀ n : Nat, outputField n "" = "$\x7b" ++ toString n ++ "\x7d") ∧
    (∀ (n : Nat) (d : String), d ≠ "" →
       outputField n d = "$\x7b" ++ toString n ++ ":" ++ d ++ "\x7d") ∧
    (∃ cfg, cfg = eng.resolveConfig { type := some "stylesheet", outputField := outputField } ∧
       getCssSnippet eng a
         = (eng.parseStylesheet a cfg).bind fun t => eng.stringifyStylesheet t cfg) ∧
    (∃ cfg, cfg = eng.resolveConfig { type := none, outputField := outputField } ∧
       getHtmlSnippet eng a
         = (eng.parseMarkup a cfg).bind fun t => eng.stringifyMarkup t cfg) := by
  refine ⟨?_, ?_, ⟨_, rfl, rfl⟩, ⟨_, rfl, rfl⟩⟩
  · intro n
    simp [outputField]
  · intro n d hd
    simp [outputField, hd, String.append_assoc]

/-- C7 witness: the hook evaluated at tab stop 1 with no default and at tab
stop 2 with default `10px`. -/
theorem placeholder_hook_format_witness :
    outputField 1 "" = "$\x7b" ++ toString 1 ++ "\x7d" ∧
    outputField 2 "10px" = "$\x7b" ++ toString 2 ++ ":" ++ "10px" ++ "\x7d" :=
  ⟨(placeholder_hook_format_and_shared_config wEngine "m10").1 1,
   (placeholder_hook_format_and_shared_config wEngine "m10").2.1 2 "10px" (by decide)⟩

/-- C8 counterexample: on a concrete request the produced item's
documentation is literally the same string as the snippet-syntax insertion
payload (it even contains the snippet field marker), so it is not a preview
produced by leaving the placeholder hook unset and distinct from the
snippet-syntax text. -/
theorem documentation_is_snippet_payload :
    ∃ item, (getCompeletionItem wEngine 0 "hello" 5 none).1 = some item ∧
      item.documentation = item.textEdit.newText ∧
      item.documentation = "<ul>$\x7b1\x7d</ul>" :=
  ⟨buildCompletionItem "ul" "<ul>$\x7b1\x7d</ul>" (buildRange 0 2 2), rfl, rfl, rfl⟩

/-- C8 (amended): every assembled completion item has label and detail equal
to the raw abbreviation, documentation equal to the snippet-formatted
expansion itself — the very string used as the insertion payload; no
hook-unset preview is produced — the payload tagged with snippet insert-text
format and snippet kind, and the text edit targeting the computed range. -/
theorem completion_item_field_assembly {C TM TS : Type}
    (eng : EmmetEngine C TM TS) (linenr : Nat) (line : String) (char : Nat)
    (opts? : Option Opts) (ep : ExtractedAbbreviation) (txt : String)
    (hx : eng.extract line char (opts?.getD {}) = .ok (some ep))
    (hr : (if (opts?.getD {}).type = some "stylesheet"
           then getCssSnippet eng ep.abbreviation
           else getHtmlSnippet eng ep.abbreviation) = .ok txt) :
    (getCompeletionItem eng linenr line char opts?).1 =
      some { insertTextFormat := .snippet
             label := ep.abbreviation
             detail := ep.abbreviation
             documentation := txt
             textEdit := { range := buildRange linenr ep.start ep.start
                           newText := txt }
             kind := .snippet
             data := { range := buildRange linenr ep.start ep.start
                       textResult := txt } } := by
  simp [getCompeletionItem, hx, hr, buildCompletionItem]

/-- C8 witness: the assembly equality evaluated on the concrete engine and
request. -/
theorem completion_item_field_assembly_witness :
    (getCompeletionItem wEngine 0 "hello" 5 none).1 =
      some { insertTextFormat := .snippet
             label := "ul"
             detail := "ul"
             documentation := "<ul>$\x7b1\x7d</ul>"
             textEdit := { range := buildRange 0 2 2
                           newText := "<ul>$\x7b1\x7d</ul>" }
             kind := .snippet
             data := { range := buildRange 0 2 2
                       textResult := "<ul>$\x7b1\x7d</ul>" } } :=
  completion_item_field_assembly wEngine 0 "hello" 5 none
    { start := 2, abbreviation := "ul" } "<ul>$\x7b1\x7d</ul>" rfl rfl

/-- C9 counterexample: the advertised trigger characters do not cover every
letter — the uppercase letter `A` is alphabetic, yet its singleton string is
not in `triggerCharacters`. -/
theorem trigger_characters_missing_uppercase :
    ¬ (∀ c : Char, (c.isAlpha = true ∨ c.isDigit = true) →
        triggerCharacters.contains (String.singleton c) = true) := by
  intro h
  have hA := h 'A' (Or.inl (by decide))
  exact absurd hA (by decide)

/-- C9 (amended): the advertised trigger-character set is exactly the eight
structural punctuation characters followed by every lowercase letter and
every digit (uppercase letters are absent). -/
theorem trigger_characters_exact :
    triggerCharacters =
      [">", ")", "]", "\x7d", "@", "*", "$", "+"]
      ++ ((List.range 26).map fun i => String.singleton (Char.ofNat (97 + i)))
      ++ ((List.range 10).map fun i => String.singleton (Char.ofNat (48 + i))) := by
  decide

/-- C10: when the requested line number is at least the number of lines the
split of the document text produces, the line lookup yields the literal
string `undefined`, and the handler proceeds normally, attempting
abbreviation extraction against that string as if it were the document
line. -/
theorem out_of_range_line_extracts_from_undefined :
    (∀ (content : String) (linenr : Nat),
       (splitLines content).length ≤ linenr →
       getLine content linenr = "undefined") ∧
    (∀ (C TM TS : Type) (eng : EmmetEngine C TM TS)
       (documents : String → Option TextDocument) (gs : Settings)
       (p : TextDocumentPositionParams) (docs : TextDocument),
       documents p.textDocument.uri = some docs →
       (splitLines docs.text).length ≤ p.position.line →
       (onCompletion eng documents gs p).1 =
         (if gs.html_filetypes.contains docs.languageId
          then (getCompeletionItem eng p.position.line "undefined"
                 p.position.character none).1.toList
          else [])
         ++ (if gs.css_filetypes.contains docs.languageId
             then (getCompeletionItem eng p.position.line "undefined"
                    p.position.character (some { type := some "stylesheet" })).1.toList
             else [])) := by
  have hgl : ∀ (content : String) (linenr : Nat),
      (splitLines content).length ≤ linenr →
      getLine content linenr = "undefined" := by
    intro content linenr h
    simp [getLine, List.getElem?_eq_none h]
  refine ⟨hgl, ?_⟩
  intro C TM TS eng documents gs p docs hdoc hlen
  simp only [onCompletion, hdoc, hgl docs.text p.position.line hlen]
  split <;> split <;> rfl

/-- C10 witness: the one-line document `hello` queried at line 7 — the line
lookup yields `undefined` and the reply is the one computed from the string
`undefined`. -/
theorem out_of_range_line_extracts_from_undefined_witness :
    getLine "hello" 7 = "undefined" ∧
    (onCompletion wEngine wDocuments defaultSettings wParamsLine7).1 =
      (if defaultSettings.html_filetypes.contains "html"
       then (getCompeletionItem wEngine 7 "undefined" 5 none).1.toList
       else [])
      ++ (if defaultSettings.css_filetypes.contains "html"
          then (getCompeletionItem wEngine 7 "undefined" 5
                 (some { type := some "stylesheet" })).1.toList
          else []) :=
  ⟨out_of_range_line_extracts_from_undefined.1 "hello" 7 (by decide),
   out_of_range_line_extracts_from_undefined.2 Unit Unit Unit wEngine wDocuments
     defaultSettings wParamsLine7 { languageId := "html", text := "hello" }
     (by decide) (by decide)⟩

end EmmetLs
